import Mathlib

/-!
Shallow embedding of the real-time presence / location / event-debounce
subsystem of `apps/server/src/websocket.ts` (the only part of the repository
with nontrivial state logic).  JavaScript `Map`s are modelled as
insertion-ordered association lists (`JsMap`), JS `Set<string>` as duplicate
free `List String`, timestamps (`Date.now()`) as `Nat` parameters threaded
into each handler, and coordinates (JS numbers) as `Rat` so that the epsilon
comparison is exact.  Network emission is modelled as a list of `Broadcast`
values returned next to the successor state; the socket.io room bookkeeping
itself (`socket.join`) lives inside the io library and is not part of the
module's own state.  `io` and `prismaRef` are assumed initialized.
-/

namespace Vigil

/-- Insertion-ordered association list modelling a JavaScript `Map`:
`set` on an existing key replaces the value in place (keeping the key's
original position), `set` on a fresh key appends, deletion removes the
single entry for the key, and iteration is in insertion order. -/
abbrev JsMap (α β : Type) := List (α × β)

namespace JsMap

variable {α β : Type} [DecidableEq α]

/-- `Map.prototype.get`. -/
def get : JsMap α β → α → Option β
  | [], _ => none
  | p :: rest, k => if p.1 = k then some p.2 else get rest k

/-- `Map.prototype.set`: replace in place if the key is present, else append. -/
def set : JsMap α β → α → β → JsMap α β
  | [], k, v => [(k, v)]
  | p :: rest, k, v => if p.1 = k then (k, v) :: rest else p :: set rest k v

/-- `Map.prototype.delete`: drop the (first) entry holding the key. -/
def del : JsMap α β → α → JsMap α β
  | [], _ => []
  | p :: rest, k => if p.1 = k then rest else p :: del rest k

/-- The key list, in insertion order. -/
def keys (m : JsMap α β) : List α := m.map (·.1)

/-- A real JS `Map` never holds two entries with the same key. -/
def KeysNodup (m : JsMap α β) : Prop := m.keys.Nodup

end JsMap

/-- `PresenceStatus` from the source: the wire-level status enum
`"online" | "away" | "offline"`. -/
inductive PresenceStatus
  | online
  | away
  | offline
deriving DecidableEq, Repr

/-- The status field actually stored inside a `PresenceEntry`
(typed `"online" | "away"` in the source; offline is the absence of an
entry). -/
inductive EntryStatus
  | online
  | away
deriving DecidableEq, Repr

/-- Embeds the stored status into the wire-level status enum. -/
def EntryStatus.toPresence : EntryStatus → PresenceStatus
  | .online => .online
  | .away => .away

/-- `PresenceEntry` from the source; `socketIds : Set<string>` is modelled as
a duplicate-free insertion-ordered list. -/
structure PresenceEntry where
  status : EntryStatus
  lastActivity : Nat
  socketIds : List String
deriving DecidableEq, Repr

/-- `LocationEntry` from the source; coordinates as `Rat`. -/
structure LocationEntry where
  latitude : Rat
  longitude : Rat
  updatedAt : Nat
deriving DecidableEq, Repr

/-- The closed `action` enum of `WsEventPayload`. -/
inductive WsAction
  | created
  | updated
  | archived
  | bound
  | unbound
  | deleted
  | linked
  | completed
deriving DecidableEq, Repr

/-- `WsEventPayload` from the source (`event` kept as a plain string). -/
structure WsEventPayload where
  event : String
  entityId : Option String
  action : WsAction
  timestamp : Nat
  message : Option String
  preview : Option String
deriving DecidableEq, Repr

/-- The caller-supplied part of a payload (`Omit<WsEventPayload, "timestamp">`):
`emitToUser` / `emitToAll` stamp the timestamp themselves. -/
structure WsEventInput where
  event : String
  entityId : Option String
  action : WsAction
  message : Option String
  preview : Option String
deriving DecidableEq, Repr

/-- `{ ...payload, timestamp: Date.now() }`. -/
def WsEventInput.stamp (p : WsEventInput) (now : Nat) : WsEventPayload :=
  ⟨p.event, p.entityId, p.action, now, p.message, p.preview⟩

/-- The heartbeat payload `{ lat?, lng? }`; the handler only uses the
coordinates when both are numbers. -/
structure HeartbeatPayload where
  lat : Option Rat
  lng : Option Rat
deriving DecidableEq, Repr

/-- One network emission performed by the module (`io.to(room).emit(...)`). -/
inductive Broadcast
  | presence (userId : String) (status : PresenceStatus)
  | location (userId : String) (entry : LocationEntry)
  | batch (room : String) (events : List WsEventPayload)
deriving DecidableEq, Repr

/-- `AWAY_AFTER_MS = 5 * 60 * 1000`. -/
def AWAY_AFTER_MS : Nat := 5 * 60 * 1000

/-- `LOCATION_CHANGE_THRESHOLD = 0.0001` (exact, as a rational). -/
def LOCATION_CHANGE_THRESHOLD : Rat := 1 / 10000

/-- The module-level mutable state of `websocket.ts`: `presenceMap`,
`locationMap`, `locationDbDirty` (a `Set<string>`, modelled as a
duplicate-free insertion-ordered list) and `pendingEvents`.  The debounce
timer handles (`eventDebounceMap`) only decide *when* a flush callback runs
and carry no data, so the flush is modelled as an explicit operation. -/
structure WsState where
  presenceMap : JsMap String PresenceEntry
  locationMap : JsMap String LocationEntry
  locationDbDirty : List String
  pendingEvents : JsMap String (List WsEventPayload)
deriving DecidableEq, Repr

/-- The state at process start: every map empty. -/
def WsState.init : WsState := ⟨[], [], [], []⟩

/-- `Set.prototype.add` on the dirty set. -/
def addDirty (d : List String) (u : String) : List String :=
  if u ∈ d then d else d ++ [u]

/-- The `JOIN_USER_ROOM` handler: create the presence entry if absent, add
the socket id, refresh `lastActivity`, force status `online`, and broadcast
`online` (unconditionally).  The guard mirrors
`if (userId && typeof userId === "string")`. -/
def joinUserRoom (s : WsState) (socketId userId : String) (now : Nat) :
    WsState × List Broadcast :=
  if userId = "" then (s, [])
  else
    let entry0 := (s.presenceMap.get userId).getD
      { status := .online, lastActivity := now, socketIds := [] }
    let entry : PresenceEntry :=
      { status := .online,
        lastActivity := now,
        socketIds :=
          if socketId ∈ entry0.socketIds then entry0.socketIds
          else entry0.socketIds ++ [socketId] }
    ({ s with presenceMap := s.presenceMap.set userId entry },
     [Broadcast.presence userId .online])

/-- The `LEAVE_USER_ROOM` handler: drop the socket id; when the connection
set empties, delete the entry and broadcast `offline`. -/
def leaveUserRoom (s : WsState) (socketId userId : String) :
    WsState × List Broadcast :=
  if userId = "" then (s, [])
  else
    match s.presenceMap.get userId with
    | none => (s, [])
    | some entry =>
      let remaining := entry.socketIds.filter (fun i => i ≠ socketId)
      if remaining = [] then
        ({ s with presenceMap := s.presenceMap.del userId },
         [Broadcast.presence userId .offline])
      else
        ({ s with presenceMap :=
            s.presenceMap.set userId { entry with socketIds := remaining } },
         [])

/-- `Array.from(presenceMap.entries()).find(([, e]) => e.socketIds.has(socket.id))`:
the first user (in insertion order) owning the socket. -/
def findUserOf (m : JsMap String PresenceEntry) (socketId : String) :
    Option String :=
  (m.find? (fun p => socketId ∈ p.2.socketIds)).map (·.1)

/-- The presence block of the `PRESENCE_HEARTBEAT` handler: refresh
`lastActivity`; on an away entry also flip it to online and broadcast
`online` (the only broadcast this block can emit). -/
def heartbeatPresencePart (m : JsMap String PresenceEntry) (userId : String)
    (now : Nat) : JsMap String PresenceEntry × List Broadcast :=
  match m.get userId with
  | none => (m, [])
  | some entry =>
    if entry.status = .away then
      (m.set userId { entry with lastActivity := now, status := .online },
       [Broadcast.presence userId .online])
    else
      (m.set userId { entry with lastActivity := now }, [])

/-- The coordinate guard of the heartbeat handler:
`payload && typeof payload.lat === "number" && typeof payload.lng === "number"`. -/
def coordsOf : Option HeartbeatPayload → Option (Rat × Rat)
  | some p =>
    match p.lat, p.lng with
    | some lat, some lng => some (lat, lng)
    | _, _ => none
  | none => none

/-- The handler's `moved` computation:
`!prev || |Δlat| > THRESHOLD || |Δlng| > THRESHOLD`. -/
def movedFrom (prev : Option LocationEntry) (lat lng : Rat) : Bool :=
  match prev with
  | none => true
  | some p =>
    decide (LOCATION_CHANGE_THRESHOLD < |p.latitude - lat|) ||
    decide (LOCATION_CHANGE_THRESHOLD < |p.longitude - lng|)

/-- The `PRESENCE_HEARTBEAT` handler.  If the socket belongs to no presence
entry the handler does nothing.  Otherwise it refreshes `lastActivity`,
broadcasts `online` only on an away-to-online transition, and — when the
payload carries numeric coordinates — overwrites the location entry, marks
the user dirty, and broadcasts the location only when `moved`. -/
def heartbeat (s : WsState) (socketId : String)
    (payload : Option HeartbeatPayload) (now : Nat) :
    WsState × List Broadcast :=
  match findUserOf s.presenceMap socketId with
  | none => (s, [])
  | some userId =>
    let pp := heartbeatPresencePart s.presenceMap userId now
    match coordsOf payload with
    | none => ({ s with presenceMap := pp.1 }, pp.2)
    | some (lat, lng) =>
      let moved := movedFrom (s.locationMap.get userId) lat lng
      let locEntry : LocationEntry :=
        { latitude := lat, longitude := lng, updatedAt := now }
      ({ s with
          presenceMap := pp.1,
          locationMap := s.locationMap.set userId locEntry,
          locationDbDirty := addDirty s.locationDbDirty userId },
       pp.2 ++ (if moved then [Broadcast.location userId locEntry] else []))

/-- The `disconnect` handler: find the user owning the socket, drop the
socket id, and when the connection set empties delete the entry and
broadcast `offline`.  `locationMap` and `locationDbDirty` are untouched. -/
def onDisconnect (s : WsState) (socketId : String) :
    WsState × List Broadcast :=
  match findUserOf s.presenceMap socketId with
  | none => (s, [])
  | some userId =>
    match s.presenceMap.get userId with
    | none => (s, [])
    | some entry =>
      let remaining := entry.socketIds.filter (fun i => i ≠ socketId)
      if remaining = [] then
        ({ s with presenceMap := s.presenceMap.del userId },
         [Broadcast.presence userId .offline])
      else
        ({ s with presenceMap :=
            s.presenceMap.set userId { entry with socketIds := remaining } },
         [])

/-- One entry's transition under the away sweep: an online entry whose
`lastActivity` is at least `AWAY_AFTER_MS` old becomes away
(`now - entry.lastActivity >= AWAY_AFTER_MS`, written without truncating
subtraction). -/
def sweepEntry (now : Nat) (p : String × PresenceEntry) :
    String × PresenceEntry :=
  if p.2.status = .online ∧ p.2.lastActivity + AWAY_AFTER_MS ≤ now then
    (p.1, { p.2 with status := .away })
  else p

/-- The broadcast an entry contributes during the away sweep. -/
def sweepBroadcast (now : Nat) (p : String × PresenceEntry) :
    Option Broadcast :=
  if p.2.status = .online ∧ p.2.lastActivity + AWAY_AFTER_MS ≤ now then
    some (Broadcast.presence p.1 .away)
  else none

/-- One tick of `startAwayCheckInterval`: sweep every presence entry in
insertion order, flipping expired online entries to away and broadcasting
each flip. -/
def awayCheckTick (s : WsState) (now : Nat) : WsState × List Broadcast :=
  ({ s with presenceMap := s.presenceMap.map (sweepEntry now) },
   s.presenceMap.filterMap (sweepBroadcast now))

/-- One tick of `startLocationPersistInterval`.  The code copies the dirty
set into `batch`, clears the dirty set, and then upserts each batched user's
current entry, catching and only logging failures (`persistOk u` says whether
the awaited upsert for `u` succeeds).  Returns the successfully upserted
rows. -/
def locationPersistTick (s : WsState) (persistOk : String → Bool) :
    WsState × List (String × Rat × Rat) :=
  if s.locationDbDirty = [] then (s, [])
  else
    let batch := s.locationDbDirty
    let upserts := batch.filterMap (fun u =>
      match s.locationMap.get u with
      | none => none
      | some loc =>
        if persistOk u then some (u, loc.latitude, loc.longitude) else none)
    ({ s with locationDbDirty := [] }, upserts)

/-- The shared enqueue step of `emitToUser` / `emitToAll`: stamp the payload
and append it to the room's pending batch (the timer restart carries no
data). -/
def enqueueEvent (s : WsState) (room : String) (p : WsEventInput) (now : Nat) :
    WsState :=
  let pending := (s.pendingEvents.get room).getD []
  { s with pendingEvents := s.pendingEvents.set room (pending ++ [p.stamp now]) }

/-- `emitToUser`: enqueue into the `user:<id>` room's batch. -/
def emitToUser (s : WsState) (userId : String) (p : WsEventInput) (now : Nat) :
    WsState :=
  enqueueEvent s ("user:" ++ userId) p now

/-- `emitToAll`: enqueue into the `"global"` batch. -/
def emitToAll (s : WsState) (p : WsEventInput) (now : Nat) : WsState :=
  enqueueEvent s "global" p now

/-- The dedupe key of `deduplicateEvents`:
`event.entityId ? event.event + ":" + event.entityId : event.event` —
JS truthiness makes an empty-string entityId fall back to the bare event. -/
def dedupKey (e : WsEventPayload) : String :=
  match e.entityId with
  | some id => if id = "" then e.event else e.event ++ ":" ++ id
  | none => e.event

/-- `deduplicateEvents`: insert every event into a JS `Map` keyed by
`dedupKey` (so a later event replaces an earlier one *in place*) and return
the values in the `Map`'s iteration order. -/
def deduplicateEvents (events : List WsEventPayload) : List WsEventPayload :=
  (events.foldl (fun m e => JsMap.set m (dedupKey e) e)
    ([] : JsMap String WsEventPayload)).map (·.2)

/-- The debounce-timer callback for one room: emit the deduplicated batch
(if non-empty) and clear the room's pending batch and timer. -/
def flushRoom (s : WsState) (room : String) : WsState × List Broadcast :=
  let events := (s.pendingEvents.get room).getD []
  ({ s with pendingEvents := s.pendingEvents.del room },
   if events = [] then [] else [Broadcast.batch room (deduplicateEvents events)])

/-- `getPresenceMap`: the read-only presence snapshot handed to tRPC. -/
def getPresenceMap (s : WsState) : JsMap String PresenceStatus :=
  s.presenceMap.map (fun p => (p.1, p.2.status.toPresence))

/-- `getLocationMap`: the read-only location snapshot. -/
def getLocationMap (s : WsState) : JsMap String LocationEntry :=
  s.locationMap.map (fun p => (p.1, p.2))

/-- One externally triggered operation on the module state (the broadcasts
are dropped here; `run` is used for reachability-style invariants). -/
inductive WsOp
  | join (socketId userId : String) (now : Nat)
  | leave (socketId userId : String)
  | beat (socketId : String) (payload : Option HeartbeatPayload) (now : Nat)
  | disconnect (socketId : String)
  | awayTick (now : Nat)
  | persistTick (ok : String → Bool)
  | emitUser (userId : String) (p : WsEventInput) (now : Nat)
  | emitAll (p : WsEventInput) (now : Nat)
  | flush (room : String)

/-- Apply one operation to the state. -/
def stepOp (s : WsState) : WsOp → WsState
  | .join sid uid now => (joinUserRoom s sid uid now).1
  | .leave sid uid => (leaveUserRoom s sid uid).1
  | .beat sid payload now => (heartbeat s sid payload now).1
  | .disconnect sid => (onDisconnect s sid).1
  | .awayTick now => (awayCheckTick s now).1
  | .persistTick ok => (locationPersistTick s ok).1
  | .emitUser uid p now => emitToUser s uid p now
  | .emitAll p now => emitToAll s p now
  | .flush room => (flushRoom s room).1

/-- Run a sequence of operations from a given state. -/
def run (s : WsState) (ops : List WsOp) : WsState := ops.foldl stepOp s

/-- The socket-id set the presence map records for a user (empty when the
user has no entry). -/
def liveSockets (s : WsState) (u : String) : List String :=
  ((s.presenceMap.get u).map PresenceEntry.socketIds).getD []

/-- The presence-map invariant: every stored entry has a non-empty
connection-id set. -/
def presenceInv (s : WsState) : Prop :=
  ∀ p ∈ s.presenceMap, p.2.socketIds ≠ []

/-- Whether a broadcast is a presence update for the given user. -/
def isPresenceOf (u : String) : Broadcast → Bool
  | .presence v _ => v = u
  | _ => false

/-- Whether a broadcast is a location update for the given user. -/
def isLocationOf (u : String) : Broadcast → Bool
  | .location v _ => v = u
  | _ => false

/-- A state in which user u1 has a presence entry, a tracked location and a
set dirty flag. -/
def c1State : WsState :=
  { presenceMap := [("u1", ⟨.online, 2, ["s1"]⟩)],
    locationMap := [("u1", ⟨10, 20, 2⟩)],
    locationDbDirty := ["u1"],
    pendingEvents := [] }

/-- Join, heartbeat carrying coordinates, then disconnect of the user's only
connection. -/
def c2Ops : List WsOp :=
  [WsOp.join "s1" "u1" 1,
   WsOp.beat "s1" (some ⟨some 10, some 20⟩) 2,
   WsOp.disconnect "s1"]

/-- A state in which user u1 is already online with one live connection. -/
def c3State : WsState :=
  { presenceMap := [("u1", ⟨.online, 1, ["s1"]⟩)],
    locationMap := [],
    locationDbDirty := [],
    pendingEvents := [] }

/-- A state in which user u2 is away with one live connection. -/
def c3AwayState : WsState :=
  { presenceMap := [("u2", ⟨.away, 1, ["s9"]⟩)],
    locationMap := [],
    locationDbDirty := [],
    pendingEvents := [] }

/-- A state in which u1 is online with connection s1 and tracked at
coordinates (10, 20). -/
def c7State : WsState :=
  { presenceMap := [("u1", ⟨.online, 2, ["s1"]⟩)],
    locationMap := [("u1", ⟨10, 20, 2⟩)],
    locationDbDirty := [],
    pendingEvents := [] }

/-- A state in which u1 is online with a `lastActivity` of 0, ready to be
swept to away. -/
def c8State : WsState :=
  { presenceMap := [("u1", ⟨.online, 0, ["s1"]⟩)],
    locationMap := [],
    locationDbDirty := [],
    pendingEvents := [] }

/-- The last event with the given dedupe key in a pending batch (the value a
JS `Map` holds for that key after inserting the batch in order). -/
def lastEventFor (events : List WsEventPayload) (k : String) :
    Option WsEventPayload :=
  events.reverse.find? (fun e => dedupKey e = k)

/-- First-occurrence deduplication of a key list: the iteration order of a
JS `Map`'s keys after inserting the list in order. -/
def firstKeyOccurrences (ks : List String) : List String :=
  ks.foldl (fun acc k => if k ∈ acc then acc else acc ++ [k]) []

/-- The position in the pending batch of the *last* enqueue of the given
event's dedupe key. -/
def posOfLastEnqueue (events : List WsEventPayload) (e : WsEventPayload) :
    Nat :=
  events.length - 1 - events.reverse.findIdx (fun x => dedupKey x = dedupKey e)

/-- The delivery-order property asserted by the spec sentence under test
(stated from the spec's words, to be compared with `deduplicateEvents`): any
two delivered events appear in increasing order of their keys' last-enqueue
positions. -/
def DeliveredInLastEnqueueOrder (events : List WsEventPayload) : Prop :=
  (deduplicateEvents events).Pairwise
    (fun a b => posOfLastEnqueue events a < posOfLastEnqueue events b)

/-- Two updates and an archive for the same entity, with an unrelated event
in between. -/
def evA1 : WsEventPayload :=
  ⟨"cashflow:updated", some "1", .updated, 1, none, none⟩

/-- An event for a different entity, enqueued between evA1 and evA2. -/
def evB : WsEventPayload :=
  ⟨"receipt:updated", some "2", .updated, 2, none, none⟩

/-- A later event carrying the same dedupe key as evA1. -/
def evA2 : WsEventPayload :=
  ⟨"cashflow:updated", some "1", .archived, 3, none, none⟩

/-- The batch A1, B, A2 (A1 and A2 share a dedupe key). -/
def evList : List WsEventPayload := [evA1, evB, evA2]

/-- A state whose `user:u1` pending batch holds two events with the same
dedupe key. -/
def c4State : WsState :=
  { presenceMap := [],
    locationMap := [],
    locationDbDirty := [],
    pendingEvents := [("user:u1", [evA1, evA2])] }

namespace JsMap

variable {α β : Type} [DecidableEq α]

theorem get_set_self (m : JsMap α β) (k : α) (v : β) :
    get (set m k v) k = some v := by
  induction m with
  | nil => simp [set, get]
  | cons p rest ih =>
    by_cases hp : p.1 = k
    · simp [set, get, hp]
    · simp [set, get, hp, ih]

theorem get_set_ne (m : JsMap α β) {k k' : α} (v : β) (hne : k' ≠ k) :
    get (set m k v) k' = get m k' := by
  induction m with
  | nil => simp [set, get, Ne.symm hne]
  | cons p rest ih =>
    by_cases hp : p.1 = k
    · have hpk : ¬ p.1 = k' := fun h => hne (h ▸ hp ▸ rfl)
      simp [set, get, hp, hpk, Ne.symm hne]
    · simp [set, get, hp, ih]

theorem mem_set {m : JsMap α β} {k : α} {v : β} {p : α × β}
    (h : p ∈ set m k v) : p ∈ m ∨ p = (k, v) := by
  induction m with
  | nil => simp [set] at h; exact Or.inr h
  | cons q rest ih =>
    by_cases hq : q.1 = k
    · simp [set, hq] at h
      rcases h with h | h
      · exact Or.inr h
      · exact Or.inl (List.mem_cons_of_mem _ h)
    · simp [set, hq] at h
      rcases h with h | h
      · exact Or.inl (by simp [h])
      · rcases ih h with h' | h'
        · exact Or.inl (List.mem_cons_of_mem _ h')
        · exact Or.inr h'

theorem del_sublist (m : JsMap α β) (k : α) : List.Sublist (del m k) m := by
  induction m with
  | nil => simp [del]
  | cons p rest ih =>
    by_cases hp : p.1 = k
    · simp only [del, if_pos hp]
      exact List.sublist_cons_self p rest
    · simp only [del, if_neg hp]
      exact ih.cons₂ p

theorem mem_del {m : JsMap α β} {k : α} {p : α × β}
    (h : p ∈ del m k) : p ∈ m := (del_sublist m k).mem h

theorem get_mem {m : JsMap α β} {k : α} {v : β}
    (h : get m k = some v) : (k, v) ∈ m := by
  induction m with
  | nil => simp [get] at h
  | cons p rest ih =>
    by_cases hp : p.1 = k
    · rw [get, if_pos hp] at h
      obtain ⟨a, b⟩ := p
      obtain rfl : a = k := hp
      obtain rfl : b = v := by simpa using h
      exact List.mem_cons_self _ _
    · rw [get, if_neg hp] at h
      exact List.mem_cons_of_mem _ (ih h)

theorem keys_set (m : JsMap α β) (k : α) (v : β) :
    keys (set m k v) = if k ∈ keys m then keys m else keys m ++ [k] := by
  induction m with
  | nil => simp [set, keys]
  | cons p rest ih =>
    by_cases hp : p.1 = k
    · simp [set, keys, hp]
    · have hkp : ¬ k = p.1 := fun h => hp h.symm
      rw [show set (p :: rest) k v = p :: set rest k v from by rw [set, if_neg hp]]
      rw [show keys (p :: set rest k v) = p.1 :: keys (set rest k v) from rfl]
      rw [show keys (p :: rest) = p.1 :: keys rest from rfl, ih]
      by_cases hk : k ∈ keys rest
      · simp [hk, hkp]
      · simp [hk, hkp]

theorem keysNodup_set {m : JsMap α β} (h : KeysNodup m) (k : α) (v : β) :
    KeysNodup (set m k v) := by
  unfold KeysNodup at *
  rw [keys_set]
  by_cases hk : k ∈ keys m
  · simpa [hk] using h
  · simp only [hk, if_false]
    exact List.Nodup.append h (List.nodup_singleton k) (by simpa using hk)

theorem keysNodup_del {m : JsMap α β} (h : KeysNodup m) (k : α) :
    KeysNodup (del m k) := by
  unfold KeysNodup keys at *
  exact List.Nodup.sublist (List.Sublist.map (·.1) (del_sublist m k)) h

theorem get_eq_none_of_not_mem_keys {m : JsMap α β} {k : α}
    (h : k ∉ keys m) : get m k = none := by
  induction m with
  | nil => rfl
  | cons p rest ih =>
    simp only [keys, List.map_cons, List.mem_cons] at h
    push_neg at h
    have h1 : ¬ p.1 = k := fun he => h.1 he.symm
    simp [get, h1, ih (by simpa [keys] using h.2)]

end JsMap


theorem presenceInv_of_eq {s t : WsState}
    (he : t.presenceMap = s.presenceMap) (h : presenceInv s) :
    presenceInv t := by
  intro p hp
  exact h p (he ▸ hp)

theorem nonempty_addSocket (l : List String) (sid : String) :
    (if sid ∈ l then l else l ++ [sid]) ≠ [] := by
  by_cases h : sid ∈ l
  · simpa [h] using List.ne_nil_of_mem h
  · simp [h]

theorem presenceInv_join {s : WsState} (h : presenceInv s)
    (sid uid : String) (now : Nat) :
    presenceInv (joinUserRoom s sid uid now).1 := by
  by_cases hu : uid = ""
  · exact presenceInv_of_eq (by simp [joinUserRoom, hu]) h
  · intro p hp
    simp only [joinUserRoom, if_neg hu] at hp
    rcases JsMap.mem_set hp with hm | rfl
    · exact h p hm
    · exact nonempty_addSocket _ _

theorem presenceInv_leave {s : WsState} (h : presenceInv s)
    (sid uid : String) :
    presenceInv (leaveUserRoom s sid uid).1 := by
  by_cases hu : uid = ""
  · exact presenceInv_of_eq (by simp [leaveUserRoom, hu]) h
  · cases hg : s.presenceMap.get uid with
    | none => exact presenceInv_of_eq (by simp [leaveUserRoom, hu, hg]) h
    | some entry =>
      by_cases hr : entry.socketIds.filter (fun i => i ≠ sid) = []
      · intro p hp
        simp only [leaveUserRoom, if_neg hu, hg, hr, if_pos rfl] at hp
        exact h p (JsMap.mem_del hp)
      · intro p hp
        simp only [leaveUserRoom, if_neg hu, hg, if_neg hr] at hp
        rcases JsMap.mem_set hp with hm | rfl
        · exact h p hm
        · exact hr

theorem presenceInv_disconnect {s : WsState} (h : presenceInv s)
    (sid : String) :
    presenceInv (onDisconnect s sid).1 := by
  cases hf : findUserOf s.presenceMap sid with
  | none => exact presenceInv_of_eq (by simp [onDisconnect, hf]) h
  | some uid =>
    cases hg : s.presenceMap.get uid with
    | none => exact presenceInv_of_eq (by simp [onDisconnect, hf, hg]) h
    | some entry =>
      by_cases hr : entry.socketIds.filter (fun i => i ≠ sid) = []
      · intro p hp
        simp only [onDisconnect, hf, hg, hr, if_pos rfl] at hp
        exact h p (JsMap.mem_del hp)
      · intro p hp
        simp only [onDisconnect, hf, hg, if_neg hr] at hp
        rcases JsMap.mem_set hp with hm | rfl
        · exact h p hm
        · exact hr

theorem presenceInv_presencePart {m : JsMap String PresenceEntry}
    (h : ∀ p ∈ m, p.2.socketIds ≠ []) (uid : String) (now : Nat) :
    ∀ p ∈ (heartbeatPresencePart m uid now).1, p.2.socketIds ≠ [] := by
  cases hg : m.get uid with
  | none =>
    intro p hp
    simp only [heartbeatPresencePart, hg] at hp
    exact h p hp
  | some entry =>
    have hent := h _ (JsMap.get_mem hg)
    by_cases ha : entry.status = .away
    · intro p hp
      simp only [heartbeatPresencePart, hg, ha, if_pos rfl] at hp
      rcases JsMap.mem_set hp with hm | rfl
      · exact h p hm
      · exact hent
    · intro p hp
      simp only [heartbeatPresencePart, hg, if_neg ha] at hp
      rcases JsMap.mem_set hp with hm | rfl
      · exact h p hm
      · exact hent

theorem presenceInv_heartbeat {s : WsState} (h : presenceInv s)
    (sid : String) (payload : Option HeartbeatPayload) (now : Nat) :
    presenceInv (heartbeat s sid payload now).1 := by
  cases hf : findUserOf s.presenceMap sid with
  | none => exact presenceInv_of_eq (by simp [heartbeat, hf]) h
  | some uid =>
    have hpp := presenceInv_presencePart h uid now
    cases hc : coordsOf payload with
    | none =>
      intro p hp
      simp only [heartbeat, hf, hc] at hp
      exact hpp p hp
    | some c =>
      intro p hp
      simp only [heartbeat, hf, hc] at hp
      exact hpp p hp

theorem presenceInv_awayTick {s : WsState} (h : presenceInv s) (now : Nat) :
    presenceInv (awayCheckTick s now).1 := by
  intro p hp
  simp only [awayCheckTick] at hp
  rcases List.mem_map.mp hp with ⟨q, hq, rfl⟩
  have hq2 := h q hq
  unfold sweepEntry
  by_cases hcond : q.2.status = .online ∧ q.2.lastActivity + AWAY_AFTER_MS ≤ now
  · simpa [hcond] using hq2
  · simpa [hcond] using hq2

theorem presenceInv_stepOp {s : WsState} (h : presenceInv s) (op : WsOp) :
    presenceInv (stepOp s op) := by
  cases op with
  | join sid uid now => exact presenceInv_join h sid uid now
  | leave sid uid => exact presenceInv_leave h sid uid
  | beat sid payload now => exact presenceInv_heartbeat h sid payload now
  | disconnect sid => exact presenceInv_disconnect h sid
  | awayTick now => exact presenceInv_awayTick h now
  | persistTick ok =>
    refine presenceInv_of_eq ?_ h
    by_cases hd : s.locationDbDirty = [] <;>
      simp [stepOp, locationPersistTick, hd]
  | emitUser uid p now =>
    exact presenceInv_of_eq (by simp [stepOp, emitToUser, enqueueEvent]) h
  | emitAll p now =>
    exact presenceInv_of_eq (by simp [stepOp, emitToAll, enqueueEvent]) h
  | flush room =>
    exact presenceInv_of_eq (by simp [stepOp, flushRoom]) h

theorem presenceInv_run (s : WsState) (h : presenceInv s) (ops : List WsOp) :
    presenceInv (run s ops) := by
  induction ops generalizing s with
  | nil => exact h
  | cons op rest ih => exact ih _ (presenceInv_stepOp h op)

theorem presenceInv_init : presenceInv WsState.init := by
  intro p hp
  simp [WsState.init] at hp



/-- Claim C5: for every sequence of join / leave / heartbeat / disconnect
(and background-tick) operations starting from the initial state, a presence
entry for a user exists iff the entry's recorded set of live connection ids
is non-empty, i.e. iff at least one of the user's connections is currently
joined. -/
theorem presence_entry_iff_sockets_nonempty (ops : List WsOp) (u : String) :
    ((run WsState.init ops).presenceMap.get u).isSome = true ↔
      liveSockets (run WsState.init ops) u ≠ [] := by
  have hinv := presenceInv_run WsState.init presenceInv_init ops
  cases hg : (run WsState.init ops).presenceMap.get u with
  | none => simp [liveSockets, hg]
  | some e =>
    have hne := hinv _ (JsMap.get_mem hg)
    simpa [liveSockets, hg] using hne

/-- Claim C1 (amended): a location-persist flush tick unconditionally empties
the dirty set — a user whose durable-storage upsert fails is only logged, not
re-marked dirty — and the tick never touches the in-memory location map. -/
theorem locationPersistTick_clears_dirty (s : WsState) (ok : String → Bool) :
    (locationPersistTick s ok).1.locationDbDirty = [] ∧
    (locationPersistTick s ok).1.locationMap = s.locationMap := by
  by_cases hd : s.locationDbDirty = [] <;> simp [locationPersistTick, hd]


/-- Claim C1 counterexample: user u1 is dirty and its durable-storage upsert
fails on the flush tick, yet u1 does not remain marked dirty afterwards —
the failed entry will not be retried on the next flush tick. -/
theorem failed_upsert_not_left_dirty :
    "u1" ∉ (locationPersistTick c1State (fun _ => false)).1.locationDbDirty := by
  decide


/-- Claim C2: processing the disconnect of a user's last connection removes
the presence entry, but does NOT cascade to the location tracker — the
user's in-memory location entry survives the disconnect (nothing in the
module ever deletes from `locationMap`). -/
theorem disconnect_leaves_location_entry :
    ((run WsState.init c2Ops).presenceMap.get "u1" = none) ∧
    ((run WsState.init c2Ops).locationMap.get "u1" =
      some ⟨10, 20, 2⟩) := by
  decide

theorem heartbeatPresencePart_snd {m : JsMap String PresenceEntry}
    {uid : String} {e : PresenceEntry} (now : Nat) (hg : m.get uid = some e) :
    (heartbeatPresencePart m uid now).2 =
      if e.status = .away then [Broadcast.presence uid .online] else [] := by
  by_cases ha : e.status = .away
  · simp [heartbeatPresencePart, hg, ha]
  · simp [heartbeatPresencePart, hg, ha]

theorem heartbeat_snd {s : WsState} {sid uid : String}
    (payload : Option HeartbeatPayload) (now : Nat)
    (hf : findUserOf s.presenceMap sid = some uid) :
    (heartbeat s sid payload now).2 =
      (heartbeatPresencePart s.presenceMap uid now).2 ++
      (match coordsOf payload with
       | none => []
       | some (lat, lng) =>
         if movedFrom (s.locationMap.get uid) lat lng then
           [Broadcast.location uid ⟨lat, lng, now⟩]
         else []) := by
  cases hc : coordsOf payload with
  | none => simp [heartbeat, hf, hc]
  | some c =>
    obtain ⟨lat, lng⟩ := c
    simp [heartbeat, hf, hc]

theorem coordPart_filter_isPresenceOf (payload : Option HeartbeatPayload)
    (prev : Option LocationEntry) (uid u : String) (now : Nat) :
    (match coordsOf payload with
     | none => ([] : List Broadcast)
     | some (lat, lng) =>
       if movedFrom prev lat lng then
         [Broadcast.location uid ⟨lat, lng, now⟩]
       else []).filter (isPresenceOf u) = [] := by
  cases hc : coordsOf payload with
  | none => simp
  | some c =>
    obtain ⟨lat, lng⟩ := c
    by_cases hm : movedFrom prev lat lng
    · simp [hm, isPresenceOf]
    · simp [hm]


/-- Claim C3 counterexample: u1 is already online, yet processing a join for
u1 still emits a presence-update broadcast — the join broadcast is not
conditional on the status actually changing. -/
theorem join_broadcasts_without_status_change :
    ((c3State.presenceMap.get "u1").map PresenceEntry.status
        = some EntryStatus.online) ∧
    (joinUserRoom c3State "s2" "u1" 2).2 ≠ [] := by
  decide

theorem JsMap.not_mem_keys_of_get_eq_none {α β : Type} [DecidableEq α]
    {m : JsMap α β} {k : α} (h : JsMap.get m k = none) :
    k ∉ JsMap.keys m := by
  induction m with
  | nil => simp [JsMap.keys]
  | cons p rest ih =>
    by_cases hp : p.1 = k
    · rw [JsMap.get, if_pos hp] at h
      exact absurd h (by simp)
    · rw [JsMap.get, if_neg hp] at h
      intro hmem
      have hmem2 : k ∈ p.1 :: JsMap.keys rest := hmem
      rcases List.mem_cons.mp hmem2 with h1 | h1
      · exact hp h1.symm
      · exact (ih h) h1

theorem findUserOf_mem_keys {m : JsMap String PresenceEntry}
    {sid uid : String} (h : findUserOf m sid = some uid) :
    uid ∈ JsMap.keys m := by
  unfold findUserOf at h
  cases hf : m.find? (fun p => sid ∈ p.2.socketIds) with
  | none => rw [hf] at h; simp at h
  | some p =>
    rw [hf] at h
    have h2 : p.1 = uid := by simpa using h
    subst h2
    exact List.mem_map_of_mem _ (List.mem_of_find?_eq_some hf)

theorem heartbeat_fst_presenceMap {s : WsState} {sid uid : String}
    (payload : Option HeartbeatPayload) (now : Nat)
    (hf : findUserOf s.presenceMap sid = some uid) :
    (heartbeat s sid payload now).1.presenceMap =
      (heartbeatPresencePart s.presenceMap uid now).1 := by
  cases hc : coordsOf payload with
  | none => simp [heartbeat, hf, hc]
  | some c =>
    obtain ⟨la, ln⟩ := c
    simp [heartbeat, hf, hc]

theorem heartbeatPresencePart_get_ne {m : JsMap String PresenceEntry}
    {uid u : String} (now : Nat) (hne : u ≠ uid) :
    JsMap.get (heartbeatPresencePart m uid now).1 u = JsMap.get m u := by
  cases hg : m.get uid with
  | none => simp [heartbeatPresencePart, hg]
  | some entry =>
    by_cases ha : entry.status = .away
    · simp [heartbeatPresencePart, hg, ha, JsMap.get_set_ne m _ hne]
    · simp [heartbeatPresencePart, hg, ha, JsMap.get_set_ne m _ hne]

theorem heartbeat_absent_presence (s : WsState) (sid u : String)
    (payload : Option HeartbeatPayload) (now : Nat)
    (hnone : s.presenceMap.get u = none) :
    (heartbeat s sid payload now).1.presenceMap.get u = none := by
  cases hf : findUserOf s.presenceMap sid with
  | none => simp [heartbeat, hf, hnone]
  | some uid =>
    have hmem := findUserOf_mem_keys hf
    have hne : u ≠ uid := by
      intro h
      subst h
      exact (JsMap.not_mem_keys_of_get_eq_none hnone) hmem
    rw [heartbeat_fst_presenceMap payload now hf,
      heartbeatPresencePart_get_ne now hne]
    exact hnone

/-- Claim C3 (amended): a join always forces the user's status to online and
always emits an online presence-update broadcast, whether or not the status
changed; a heartbeat from a registered connection leaves the entry's stored
status online — in particular it flips an away entry to online — and emits
an online presence-update broadcast exactly when the status was away (so
only heartbeats broadcast iff the status changed, joins broadcast always);
and a heartbeat never creates a presence entry, so a user in state no-entry
stays in no-entry (never becomes online) under any heartbeat. -/
theorem join_heartbeat_online_transition
    (s : WsState) (sid uid : String) (now : Nat)
    (s2 : WsState) (sid2 u2 : String) (e2 : PresenceEntry)
    (payload : Option HeartbeatPayload) (now2 : Nat)
    (s3 : WsState) (sid3 u3 : String) (payload3 : Option HeartbeatPayload)
    (now3 : Nat)
    (hu : uid ≠ "")
    (hf : findUserOf s2.presenceMap sid2 = some u2)
    (hg : s2.presenceMap.get u2 = some e2)
    (hnone : s3.presenceMap.get u3 = none) :
    ((joinUserRoom s sid uid now).2 = [Broadcast.presence uid .online]) ∧
    (((joinUserRoom s sid uid now).1.presenceMap.get uid).map
        PresenceEntry.status = some .online) ∧
    ((heartbeat s2 sid2 payload now2).2.filter (isPresenceOf u2) =
      if e2.status = .away then [Broadcast.presence u2 .online] else []) ∧
    (((heartbeat s2 sid2 payload now2).1.presenceMap.get u2).map
        PresenceEntry.status = some .online) ∧
    ((heartbeat s3 sid3 payload3 now3).1.presenceMap.get u3 = none) := by
  refine ⟨by simp [joinUserRoom, hu], ?_, ?_, ?_,
    heartbeat_absent_presence s3 sid3 u3 payload3 now3 hnone⟩
  · simp [joinUserRoom, hu, JsMap.get_set_self]
  · rw [heartbeat_snd payload now2 hf, List.filter_append,
      coordPart_filter_isPresenceOf payload (s2.locationMap.get u2) u2 u2 now2,
      heartbeatPresencePart_snd now2 hg]
    by_cases ha : e2.status = .away
    · simp [ha, isPresenceOf]
    · simp [ha]
  · rw [heartbeat_fst_presenceMap payload now2 hf]
    by_cases ha : e2.status = .away
    · simp [heartbeatPresencePart, hg, ha, JsMap.get_set_self]
    · have hon : e2.status = .online := by
        cases he : e2.status
        · rfl
        · exact absurd he ha
      simp [heartbeatPresencePart, hg, ha, JsMap.get_set_self, hon]


/-- Witness for the amended C3 theorem at concrete inputs: a join for the
already-online u1 broadcasts online and leaves u1 online; a heartbeat for
the away u2 broadcasts exactly one online update and stores status online;
and a heartbeat with coordinates for the no-entry user u1 of c3AwayState
leaves u1 without a presence entry. -/
theorem join_heartbeat_online_transition_witness :
    ((joinUserRoom c3State "s2" "u1" 2).2 = [Broadcast.presence "u1" .online]) ∧
    (((joinUserRoom c3State "s2" "u1" 2).1.presenceMap.get "u1").map
        PresenceEntry.status = some .online) ∧
    ((heartbeat c3AwayState "s9" none 7).2.filter (isPresenceOf "u2") =
      if (⟨.away, 1, ["s9"]⟩ : PresenceEntry).status = .away then
        [Broadcast.presence "u2" .online]
      else []) ∧
    (((heartbeat c3AwayState "s9" none 7).1.presenceMap.get "u2").map
        PresenceEntry.status = some .online) ∧
    ((heartbeat c3AwayState "s9" (some ⟨some 1, some 2⟩) 8).1.presenceMap.get
        "u1" = none) :=
  join_heartbeat_online_transition c3State "s2" "u1" 2 c3AwayState "s9" "u2"
    ⟨.away, 1, ["s9"]⟩ none 7 c3AwayState "s9" "u1" (some ⟨some 1, some 2⟩) 8
    (by decide) (by decide) (by decide) (by decide)

theorem mem_addDirty (d : List String) (u : String) : u ∈ addDirty d u := by
  by_cases h : u ∈ d
  · simp [addDirty, h]
  · simp [addDirty, h]

theorem heartbeatPresencePart_filter_isLocationOf
    (m : JsMap String PresenceEntry) (uid : String) (now : Nat) (u : String) :
    (heartbeatPresencePart m uid now).2.filter (isLocationOf u) = [] := by
  cases hg : m.get uid with
  | none => simp [heartbeatPresencePart, hg]
  | some e =>
    by_cases ha : e.status = .away
    · simp [heartbeatPresencePart, hg, ha, isLocationOf]
    · simp [heartbeatPresencePart, hg, ha]

/-- Claim C7: a heartbeat carrying coordinates for a registered connection
of an already-tracked user always overwrites the in-memory location entry
and marks the user dirty, regardless of displacement; a location-update
broadcast is emitted exactly once iff the displacement from the prior entry
exceeds the epsilon threshold in latitude or longitude, and no broadcast is
emitted otherwise. -/
theorem heartbeat_location_update
    (s : WsState) (sid u : String) (lat lng : Rat) (prev : LocationEntry)
    (now : Nat)
    (hf : findUserOf s.presenceMap sid = some u)
    (hprev : s.locationMap.get u = some prev) :
    ((heartbeat s sid (some ⟨some lat, some lng⟩) now).1.locationMap.get u
        = some ⟨lat, lng, now⟩) ∧
    (u ∈ (heartbeat s sid (some ⟨some lat, some lng⟩) now).1.locationDbDirty) ∧
    ((heartbeat s sid (some ⟨some lat, some lng⟩) now).2.filter
        (isLocationOf u) =
      if LOCATION_CHANGE_THRESHOLD < |prev.latitude - lat| ∨
         LOCATION_CHANGE_THRESHOLD < |prev.longitude - lng| then
        [Broadcast.location u ⟨lat, lng, now⟩]
      else []) := by
  have hc : coordsOf (some ⟨some lat, some lng⟩) = some (lat, lng) := rfl
  refine ⟨?_, ?_, ?_⟩
  · simp [heartbeat, hf, hc, JsMap.get_set_self]
  · simp only [heartbeat, hf, hc]
    exact mem_addDirty _ _
  · rw [heartbeat_snd (some ⟨some lat, some lng⟩) now hf, List.filter_append,
      heartbeatPresencePart_filter_isLocationOf, hc]
    by_cases hm : LOCATION_CHANGE_THRESHOLD < |prev.latitude - lat| ∨
        LOCATION_CHANGE_THRESHOLD < |prev.longitude - lng|
    · simp [movedFrom, hprev, hm, isLocationOf]
    · rcases not_or.mp hm with ⟨h1, h2⟩
      simp [movedFrom, hprev, h1, h2, hm]


/-- Witness for the C7 theorem: a heartbeat moving u1 by 0.01 in latitude
(above the 0.0001 threshold) updates the entry, marks u1 dirty, and emits
exactly one location broadcast. -/
theorem heartbeat_location_update_witness :
    ((heartbeat c7State "s1" (some ⟨some (10 + 1 / 100), some 20⟩) 3).1.locationMap.get "u1"
        = some ⟨10 + 1 / 100, 20, 3⟩) ∧
    ("u1" ∈ (heartbeat c7State "s1" (some ⟨some (10 + 1 / 100), some 20⟩) 3).1.locationDbDirty) ∧
    ((heartbeat c7State "s1" (some ⟨some (10 + 1 / 100), some 20⟩) 3).2.filter
        (isLocationOf "u1") =
      if LOCATION_CHANGE_THRESHOLD < |(10 : Rat) - (10 + 1 / 100)| ∨
         LOCATION_CHANGE_THRESHOLD < |(20 : Rat) - 20| then
        [Broadcast.location "u1" ⟨10 + 1 / 100, 20, 3⟩]
      else []) :=
  heartbeat_location_update c7State "s1" "u1" (10 + 1 / 100) 20 ⟨10, 20, 2⟩ 3
    (by decide) (by decide)

/-- Claim C9: a heartbeat from a socket that belongs to no presence entry's
connection-id set is a complete no-op — the state is returned unchanged and
nothing is broadcast — even when the payload carries valid coordinates. -/
theorem heartbeat_unregistered_noop (s : WsState) (sid : String)
    (payload : Option HeartbeatPayload) (now : Nat)
    (hf : findUserOf s.presenceMap sid = none) :
    heartbeat s sid payload now = (s, []) := by
  simp [heartbeat, hf]

/-- Witness for the C9 theorem: socket sX belongs to no entry of c3State, so
its heartbeat with coordinates changes nothing and emits nothing. -/
theorem heartbeat_unregistered_noop_witness :
    heartbeat c3State "sX" (some ⟨some 1, some 2⟩) 5 = (c3State, []) :=
  heartbeat_unregistered_noop c3State "sX" (some ⟨some 1, some 2⟩) 5 (by decide)

theorem get_map_keyfix {α β γ : Type} [DecidableEq α]
    (f : α × β → α × γ) (hf : ∀ p, (f p).1 = p.1) (m : JsMap α β) (k : α) :
    JsMap.get (m.map f) k = (JsMap.get m k).map (fun v => (f (k, v)).2) := by
  induction m with
  | nil => rfl
  | cons p rest ih =>
    by_cases hp : p.1 = k
    · obtain ⟨a, b⟩ := p
      obtain rfl : a = k := hp
      simp [JsMap.get, hf]
    · simp [JsMap.get, hf p, hp, ih]

theorem keys_map_keyfix {α β γ : Type} (f : α × β → α × γ)
    (hf : ∀ p, (f p).1 = p.1) (m : JsMap α β) :
    JsMap.keys (m.map f) = JsMap.keys m := by
  induction m with
  | nil => rfl
  | cons p rest ih =>
    show (f p).1 :: JsMap.keys (rest.map f) = p.1 :: JsMap.keys rest
    rw [hf p, ih]

theorem sweepEntry_fst (now : Nat) (p : String × PresenceEntry) :
    (sweepEntry now p).1 = p.1 := by
  unfold sweepEntry
  by_cases hc : p.2.status = .online ∧ p.2.lastActivity + AWAY_AFTER_MS ≤ now
  · simp [hc]
  · simp [hc]

theorem sweep_filter (now : Nat) (u : String) (m : JsMap String PresenceEntry)
    (hnd : JsMap.KeysNodup m) :
    (m.filterMap (sweepBroadcast now)).filter (isPresenceOf u) =
      (match JsMap.get m u with
       | some e =>
         if e.status = .online ∧ e.lastActivity + AWAY_AFTER_MS ≤ now then
           [Broadcast.presence u PresenceStatus.away]
         else []
       | none => []) := by
  induction m with
  | nil => rfl
  | cons p rest ih =>
    have hnd2 := hnd
    unfold JsMap.KeysNodup JsMap.keys at hnd2
    rw [List.map_cons, List.nodup_cons] at hnd2
    obtain ⟨hnotin, hndrest⟩ := hnd2
    have hrest := ih hndrest
    by_cases hp : p.1 = u
    · have hu : u ∉ JsMap.keys rest := by
        rw [← hp]
        simpa [JsMap.keys] using hnotin
      rw [JsMap.get_eq_none_of_not_mem_keys hu] at hrest
      by_cases hc : p.2.status = .online ∧ p.2.lastActivity + AWAY_AFTER_MS ≤ now
      · simp [sweepBroadcast, hc, JsMap.get, hp, isPresenceOf, hrest]
      · simp [sweepBroadcast, hc, JsMap.get, hp, hrest]
    · by_cases hc : p.2.status = .online ∧ p.2.lastActivity + AWAY_AFTER_MS ≤ now
      · simp [sweepBroadcast, hc, JsMap.get, hp, isPresenceOf, hrest]
      · simp [sweepBroadcast, hc, JsMap.get, hp, hrest]

/-- Claim C8: an online presence entry whose last activity is at least the
away threshold old transitions to away on the next sweep tick, with exactly
one away presence-update broadcast for that user; a subsequent sweep tick
(at any later time, with no intervening activity) emits no further broadcast
for that user. -/
theorem away_sweep_transition (s : WsState) (u : String) (e : PresenceEntry)
    (now now2 : Nat)
    (hnd : JsMap.KeysNodup s.presenceMap)
    (hget : s.presenceMap.get u = some e)
    (hon : e.status = .online)
    (hexp : e.lastActivity + AWAY_AFTER_MS ≤ now) :
    ((awayCheckTick s now).1.presenceMap.get u =
        some { e with status := .away }) ∧
    ((awayCheckTick s now).2.filter (isPresenceOf u) =
        [Broadcast.presence u .away]) ∧
    ((awayCheckTick (awayCheckTick s now).1 now2).2.filter
        (isPresenceOf u) = []) := by
  have hcond : e.status = .online ∧ e.lastActivity + AWAY_AFTER_MS ≤ now :=
    ⟨hon, hexp⟩
  refine ⟨?_, ?_, ?_⟩
  · simp only [awayCheckTick]
    rw [get_map_keyfix (sweepEntry now) (sweepEntry_fst now), hget]
    simp [sweepEntry, hcond]
  · simp only [awayCheckTick]
    rw [sweep_filter now u s.presenceMap hnd, hget]
    simp [hcond]
  · simp only [awayCheckTick]
    have hnd2 : JsMap.KeysNodup (s.presenceMap.map (sweepEntry now)) := by
      unfold JsMap.KeysNodup
      rw [keys_map_keyfix (sweepEntry now) (sweepEntry_fst now)]
      exact hnd
    rw [sweep_filter now2 u _ hnd2]
    rw [get_map_keyfix (sweepEntry now) (sweepEntry_fst now), hget]
    simp [sweepEntry, hcond]

/-- Witness for the C8 theorem: u1 (online, last active at 0) is swept to
away at time AWAY_AFTER_MS with exactly one broadcast, and a sweep one
threshold later emits nothing for u1. -/
theorem away_sweep_transition_witness :
    ((awayCheckTick c8State AWAY_AFTER_MS).1.presenceMap.get "u1" =
        some ⟨.away, 0, ["s1"]⟩) ∧
    ((awayCheckTick c8State AWAY_AFTER_MS).2.filter (isPresenceOf "u1") =
        [Broadcast.presence "u1" .away]) ∧
    ((awayCheckTick (awayCheckTick c8State AWAY_AFTER_MS).1
        (2 * AWAY_AFTER_MS)).2.filter (isPresenceOf "u1") = []) :=
  away_sweep_transition c8State "u1" ⟨.online, 0, ["s1"]⟩ AWAY_AFTER_MS
    (2 * AWAY_AFTER_MS) (by unfold JsMap.KeysNodup; decide) (by decide)
    (by decide) (by decide)

theorem dedup_fold_get (evs : List WsEventPayload)
    (m : JsMap String WsEventPayload) (k : String) :
    JsMap.get (evs.foldl (fun m e => JsMap.set m (dedupKey e) e) m) k =
      (lastEventFor evs k).or (JsMap.get m k) := by
  induction evs generalizing m with
  | nil => rfl
  | cons e rest ih =>
    rw [List.foldl_cons, ih]
    have hl : lastEventFor (e :: rest) k =
        (lastEventFor rest k).or
          (if dedupKey e = k then some e else none) := by
      unfold lastEventFor
      rw [List.reverse_cons, List.find?_append]
      by_cases hk : dedupKey e = k
      · simp [hk]
      · simp [hk]
    rw [hl]
    cases hrest : lastEventFor rest k with
    | some x => simp [Option.or]
    | none =>
      by_cases hk : dedupKey e = k
      · subst hk
        simp [Option.or, JsMap.get_set_self]
      · simp [Option.or, hk, JsMap.get_set_ne _ _ (fun h => hk h.symm)]

theorem dedup_fold_coherent (evs : List WsEventPayload)
    (m : JsMap String WsEventPayload) (hco : ∀ p ∈ m, dedupKey p.2 = p.1) :
    ∀ p ∈ evs.foldl (fun m e => JsMap.set m (dedupKey e) e) m,
      dedupKey p.2 = p.1 := by
  induction evs generalizing m with
  | nil => exact hco
  | cons e rest ih =>
    rw [List.foldl_cons]
    refine ih _ ?_
    intro p hp
    rcases JsMap.mem_set hp with hm | rfl
    · exact hco p hm
    · rfl

theorem dedup_fold_nodup (evs : List WsEventPayload)
    (m : JsMap String WsEventPayload) (hnd : JsMap.KeysNodup m) :
    JsMap.KeysNodup (evs.foldl (fun m e => JsMap.set m (dedupKey e) e) m) := by
  induction evs generalizing m with
  | nil => exact hnd
  | cons e rest ih =>
    rw [List.foldl_cons]
    exact ih _ (JsMap.keysNodup_set hnd _ _)

theorem coherent_filter_get (m : JsMap String WsEventPayload)
    (hco : ∀ p ∈ m, dedupKey p.2 = p.1) (hnd : JsMap.KeysNodup m)
    (k : String) :
    (m.map (·.2)).filter (fun e => dedupKey e = k) =
      (match JsMap.get m k with
       | some v => [v]
       | none => []) := by
  induction m with
  | nil => rfl
  | cons p rest ih =>
    have hcop : dedupKey p.2 = p.1 := hco p (List.mem_cons_self _ _)
    have hcorest : ∀ q ∈ rest, dedupKey q.2 = q.1 :=
      fun q hq => hco q (List.mem_cons_of_mem _ hq)
    have hnd2 := hnd
    unfold JsMap.KeysNodup JsMap.keys at hnd2
    rw [List.map_cons, List.nodup_cons] at hnd2
    obtain ⟨hnotin, hndrest⟩ := hnd2
    have hrest := ih hcorest hndrest
    by_cases hp : p.1 = k
    · have hu : k ∉ JsMap.keys rest := by
        rw [← hp]
        simpa [JsMap.keys] using hnotin
      rw [JsMap.get_eq_none_of_not_mem_keys hu] at hrest
      have hkey : dedupKey p.2 = k := hcop.trans hp
      simp [JsMap.get, hp, hkey, hrest]
    · have hne : ¬ dedupKey p.2 = k := by
        rw [hcop]
        exact hp
      simp [JsMap.get, hp, hne, hrest]

theorem deduplicateEvents_filter (evs : List WsEventPayload) (k : String) :
    (deduplicateEvents evs).filter (fun e => dedupKey e = k) =
      (match lastEventFor evs k with
       | some v => [v]
       | none => []) := by
  unfold deduplicateEvents
  rw [coherent_filter_get _
      (dedup_fold_coherent evs [] (by intro p hp; cases hp))
      (dedup_fold_nodup evs [] (by unfold JsMap.KeysNodup; exact List.nodup_nil)),
    dedup_fold_get evs [] k]
  cases lastEventFor evs k with
  | none => rfl
  | some v => rfl

theorem lastEventFor_eq_getLast (evs : List WsEventPayload) (k : String) :
    lastEventFor evs k =
      (evs.filter (fun e => dedupKey e = k)).getLast? := by
  unfold lastEventFor
  rw [← List.filter_head?, List.filter_reverse, List.head?_reverse]

/-- Claim C4: when a target's pending batch holds exactly two events with
the same (eventType, entityId) dedupe key, the flush delivers the whole
deduplicated batch as one message in which exactly one event survives for
that key — the one carrying the payload of the second (later) enqueue. -/
theorem debounce_dedup_last_wins (s : WsState) (room : String)
    (evs : List WsEventPayload) (e1 e2 : WsEventPayload)
    (hget : s.pendingEvents.get room = some evs)
    (hfil : evs.filter (fun e => dedupKey e = dedupKey e2) = [e1, e2]) :
    ((flushRoom s room).2 = [Broadcast.batch room (deduplicateEvents evs)]) ∧
    ((deduplicateEvents evs).filter (fun e => dedupKey e = dedupKey e2) =
      [e2]) := by
  have hne : evs ≠ [] := by
    intro h
    rw [h] at hfil
    simp at hfil
  constructor
  · simp [flushRoom, hget, hne]
  · rw [deduplicateEvents_filter, lastEventFor_eq_getLast, hfil]
    rfl

/-- Witness for the C4 theorem: flushing c4State's `user:u1` batch, which
holds evA1 and evA2 with the same dedupe key, delivers one batch message in
which only evA2 survives for that key. -/
theorem debounce_dedup_last_wins_witness :
    ((flushRoom c4State "user:u1").2 =
      [Broadcast.batch "user:u1" (deduplicateEvents [evA1, evA2])]) ∧
    ((deduplicateEvents [evA1, evA2]).filter
        (fun e => dedupKey e = dedupKey evA2) = [evA2]) :=
  debounce_dedup_last_wins c4State "user:u1" [evA1, evA2] evA1 evA2
    (by decide) (by decide)

theorem coherent_values_keys (m : JsMap String WsEventPayload)
    (hco : ∀ p ∈ m, dedupKey p.2 = p.1) :
    (m.map (·.2)).map dedupKey = JsMap.keys m := by
  unfold JsMap.keys
  rw [List.map_map]
  exact List.map_eq_map_iff.mpr (fun p hp => hco p hp)

theorem dedup_fold_keys (evs : List WsEventPayload)
    (m : JsMap String WsEventPayload) :
    JsMap.keys (evs.foldl (fun m e => JsMap.set m (dedupKey e) e) m) =
      (evs.map dedupKey).foldl
        (fun acc k => if k ∈ acc then acc else acc ++ [k])
        (JsMap.keys m) := by
  induction evs generalizing m with
  | nil => rfl
  | cons e rest ih =>
    rw [List.map_cons, List.foldl_cons, List.foldl_cons, ih, JsMap.keys_set]

/-- Claim C6 (amended): after deduplication the surviving events of a
target's batch are delivered in first-occurrence order of their dedupe keys
— each surviving payload is the last enqueued for its key, but it occupies
the position at which its key first entered the batch — not in order of the
keys' last enqueues. -/
theorem dedup_first_occurrence_order (evs : List WsEventPayload) :
    (deduplicateEvents evs).map dedupKey =
      firstKeyOccurrences (evs.map dedupKey) := by
  unfold deduplicateEvents firstKeyOccurrences
  rw [coherent_values_keys _ (dedup_fold_coherent evs [] (by intro p hp; cases hp)),
    dedup_fold_keys evs []]
  rfl

/-- Claim C6 counterexample: in the batch [A1, B, A2], where A1 and A2 share
a dedupe key, the flushed list is [A2, B]; B's last (and only) enqueue
precedes A2's, yet A2 is delivered first — the deduplicated batch is not in
last-enqueue order. -/
theorem dedup_not_last_enqueue_order :
    ¬ DeliveredInLastEnqueueOrder evList := by
  unfold DeliveredInLastEnqueueOrder
  decide

/-- Claim C10: the presence snapshot returned by getPresenceMap maps every
contained user to online or away, never to offline — offline exists only as
the absence of a key.  (The snapshot is a pure read of the state in this
embedding, mirroring the read-only copy loops in the code.) -/
theorem getPresenceMap_never_offline (s : WsState) (u : String)
    (st : PresenceStatus)
    (h : JsMap.get (getPresenceMap s) u = some st) :
    st ≠ PresenceStatus.offline := by
  have hmem := JsMap.get_mem h
  unfold getPresenceMap at hmem
  rcases List.mem_map.mp hmem with ⟨p, hp, heq⟩
  have h2 : p.2.status.toPresence = st := congrArg Prod.snd heq
  rw [← h2]
  cases p.2.status with
  | online => decide
  | away => decide

/-- Witness for the C10 theorem: in c3State the snapshot reports u1 as
online, which is not offline. -/
theorem getPresenceMap_never_offline_witness :
    (JsMap.get (getPresenceMap c3State) "u1" = some PresenceStatus.online) ∧
    PresenceStatus.online ≠ PresenceStatus.offline :=
  ⟨by decide,
   getPresenceMap_never_offline c3State "u1" PresenceStatus.online (by decide)⟩

end Vigil
